import Mathlib

/-!
Shallow embedding of the JSON parser (src/Rust/src/main.rs).

The source is a Rust recursive-descent JSON parser built from nom
combinators.  We embed it over `List Char` (modelling Rust `&str` as a
sequence of Unicode scalar values).  Each nom combinator used by the
source is embedded as a Lean function of the same shape, and each
grammar parser (`parse_null`, `parse_bool`, `parse_num`, `parse_str`,
`parse_array`, `parse_pair`, `parse_object`, `parse_value`,
`parse_json`) follows its Rust definition line by line.

A parser outcome is three-valued:
* `ok rest v` — success, returning the unconsumed remainder and value
  (nom's `Ok((rest, v))`);
* `err` — a recoverable parse failure (nom's `Err::Error`; the source
  never uses `cut`, so no `Failure` variant is needed, and all
  combinators used are from the `complete` family, so no `Incomplete`);
* `panic` — a Rust panic: the `panic!("key must be a string")` branch in
  `parse_object`, or the `.unwrap()` in `parse_num` firing.

Recursion in `parse_value` (through arrays and objects) is embedded with
an explicit fuel parameter; the top-level wrappers supply fuel
`input.length + 1`, which is always sufficient because every recursive
descent first consumes at least one character (`[` or `{`).
-/

/-- Outcome of running a parser: success with remainder, recoverable
failure, or a Rust panic. -/
inductive POut (α : Type) : Type where
  | ok (rest : List Char) (val : α)
  | err
  | panic
deriving DecidableEq

/-- A nom parser over string slices: input remainder in, outcome out. -/
abbrev Parser (α : Type) : Type := List Char → POut α

/-- The JSON value model (`enum JsonValue` in the source).  The `f64`
payload of `Num` is represented by the exact integer value of the
matched `-?[0-9]+` literal; for every magnitude appearing in the claims
the Rust `f64` conversion is exact, so this loses nothing relevant. -/
inductive JsonValue : Type where
  | Null
  | Num (n : Int)
  | Bool (b : Bool)
  | Str (s : List Char)
  | Array (xs : List JsonValue)
  | Object (m : List (List Char × JsonValue))

/-! ## Embedded nom combinators -/

/-- nom `character::complete::char(c)`: consume exactly the character
`c`, else a recoverable error. -/
def pchar (c : Char) : Parser Char := fun s =>
  match s with
  | [] => .err
  | c' :: rest => if c' = c then .ok rest c else .err

/-- nom `bytes::complete::tag(t)`: consume exactly the literal `t`. -/
def ptag (t : List Char) : Parser (List Char) := fun s =>
  if t.isPrefixOf s then .ok (s.drop t.length) t else .err

/-- nom `bytes::complete::take_while(p)`: consume the longest prefix of
characters satisfying `p`; never fails. -/
def take_while (p : Char → Bool) : Parser (List Char) := fun s =>
  .ok (s.dropWhile p) (s.takeWhile p)

/-- nom `character::complete::digit1`: one or more ASCII digits; a
recoverable error when the input does not start with a digit. -/
def digit1 : Parser (List Char) := fun s =>
  if s.takeWhile Char.isDigit = [] then .err
  else .ok (s.dropWhile Char.isDigit) (s.takeWhile Char.isDigit)

/-- The whitespace class of nom `multispace0`: space, tab, newline,
carriage return. -/
def isMultispace (c : Char) : Bool :=
  c = ' ' || c = '\t' || c = '\n' || c = '\r'

/-- nom `character::complete::multispace0`: zero or more whitespace
characters; never fails. -/
def multispace0 : Parser (List Char) :=
  take_while isMultispace

/-- nom `combinator::map(p, f)`: apply `f` to the parsed value. -/
def pmap {α β : Type} (p : Parser α) (f : α → β) : Parser β := fun s =>
  match p s with
  | .ok rest v => .ok rest (f v)
  | .err => .err
  | .panic => .panic

/-- nom `combinator::opt(p)`: turn failure into `none` without
consuming input. -/
def popt {α : Type} (p : Parser α) : Parser (Option α) := fun s =>
  match p s with
  | .ok rest v => .ok rest (some v)
  | .err => .ok s none
  | .panic => .panic

/-- nom `branch::alt((p, q))`: try `p`; on a recoverable error retry `q`
from the same position. -/
def palt {α : Type} (p q : Parser α) : Parser α := fun s =>
  match p s with
  | .ok rest v => .ok rest v
  | .err => q s
  | .panic => .panic

/-- nom `sequence::pair(p, q)`: run `p` then `q`, returning both. -/
def ppair {α β : Type} (p : Parser α) (q : Parser β) : Parser (α × β) := fun s =>
  match p s with
  | .ok rest v =>
    match q rest with
    | .ok rest' w => .ok rest' (v, w)
    | .err => .err
    | .panic => .panic
  | .err => .err
  | .panic => .panic

/-- nom `sequence::preceded(p, q)`: run `p` then `q`, keeping `q`'s
value. -/
def preceded {α β : Type} (p : Parser α) (q : Parser β) : Parser β :=
  pmap (ppair p q) Prod.snd

/-- nom `sequence::terminated(p, q)`: run `p` then `q`, keeping `p`'s
value. -/
def terminated {α β : Type} (p : Parser α) (q : Parser β) : Parser α :=
  pmap (ppair p q) Prod.fst

/-- nom `sequence::delimited(a, b, c)`: run `a`, `b`, `c`, keeping `b`'s
value. -/
def delimited {α β γ : Type} (a : Parser α) (b : Parser β) (c : Parser γ) : Parser β :=
  terminated (preceded a b) c

/-- nom `sequence::separated_pair(a, sep, b)`: run `a`, `sep`, `b`,
keeping `a`'s and `b`'s values. -/
def separated_pair {α β γ : Type} (a : Parser α) (sep : Parser β) (b : Parser γ) :
    Parser (α × γ) :=
  ppair (terminated a sep) b

/-- nom `combinator::recognize(p)`: run `p` and return the consumed
input slice instead of `p`'s value. -/
def recognize {α : Type} (p : Parser α) : Parser (List Char) := fun s =>
  match p s with
  | .ok rest _ => .ok rest (s.take (s.length - rest.length))
  | .err => .err
  | .panic => .panic

/-- The iteration loop of nom `multi::separated_list0`: repeatedly parse
a separator then an element, stopping (without consuming the dangling
separator) as soon as either fails; a separator that consumes nothing
is an error (nom's infinite-loop guard).  `fuel` bounds the iteration
count; the callers supply more fuel than the input length, and each
iteration consumes at least one character, so the `fuel = 0` case is
unreachable there. -/
def sepLoop {α β : Type} (sep : Parser α) (elem : Parser β) :
    Nat → List Char → List β → POut (List β)
  | 0, _, _ => .err
  | fuel + 1, i, acc =>
    match sep i with
    | .panic => .panic
    | .err => .ok i acc
    | .ok i1 _ =>
      if i1.length = i.length then .err
      else
        match elem i1 with
        | .panic => .panic
        | .err => .ok i acc
        | .ok i2 o => sepLoop sep elem fuel i2 (acc ++ [o])

/-- nom `multi::separated_list0(sep, elem)`: a possibly empty list of
`elem` separated by `sep`. -/
def separated_list0 {α β : Type} (fuel : Nat) (sep : Parser α) (elem : Parser β) :
    Parser (List β) := fun i =>
  match elem i with
  | .panic => .panic
  | .err => .ok i []
  | .ok i1 o => sepLoop sep elem fuel i1 [o]

/-! ## The grammar parsers -/

/-- `parse_null`: `map(tag("null"), |_| JsonValue::Null)`. -/
def parse_null : Parser JsonValue :=
  pmap (ptag "null".toList) (fun _ => JsonValue.Null)

/-- `parse_bool`: `alt((map(tag("true"), ..), map(tag("false"), ..)))`. -/
def parse_bool : Parser JsonValue :=
  palt (pmap (ptag "true".toList) (fun _ => JsonValue.Bool true))
       (pmap (ptag "false".toList) (fun _ => JsonValue.Bool false))

/-- The value of a nonempty all-digit character list, as produced by
Rust's `str::parse` on such input. -/
def digitsVal (ds : List Char) : Option Nat :=
  if ds.isEmpty then none
  else if ds.all Char.isDigit then
    some (ds.foldl (fun a c => a * 10 + (c.toNat - 48)) 0)
  else none

/-- Rust `s.parse::<f64>()` restricted to the slices `recognize` can
produce here (`-?[0-9]+`): it succeeds on every such slice, returning
the decimal value (exact for the magnitudes in the claims; Rust's
conversion also never fails on larger inputs, it rounds).  Inputs
outside this sublanguage are mapped to `none` conservatively; they are
proven unreachable. -/
def rustParseF64 (s : List Char) : Option Int :=
  match s with
  | [] => none
  | c :: ds =>
    if c = '-' then (digitsVal ds).map (fun n => -(n : Int))
    else (digitsVal (c :: ds)).map (fun n => (n : Int))

/-- `parse_num`: `map(recognize(pair(opt(char('-')), digit1)), |s|
Num(s.parse().unwrap()))`.  The `.unwrap()` is the `panic` branch. -/
def parse_num : Parser JsonValue := fun s =>
  match recognize (ppair (popt (pchar '-')) digit1) s with
  | .ok rest txt =>
    match rustParseF64 txt with
    | some n => .ok rest (JsonValue.Num n)
    | none => .panic
  | .err => .err
  | .panic => .panic

/-- `parse_str`: `map(delimited(char('"'), take_while(|c| c != '"'),
char('"')), |s| Str(s.to_string()))`.  Note: the content between the
quotes is copied raw; no escape processing happens. -/
def parse_str : Parser JsonValue :=
  pmap (delimited (pchar '"') (take_while (fun c => c ≠ '"')) (pchar '"'))
       JsonValue.Str

/-- `parse_array`, parameterised by the value parser it recurses into:
`delimited(char('['), separated_list0(preceded(multispace0, char(',')),
preceded(multispace0, parse_value)), char(']'))`. -/
def parse_arrayP (pv : Parser JsonValue) : Parser JsonValue := fun s =>
  pmap (delimited (pchar '[')
          (separated_list0 (s.length + 1)
            (preceded multispace0 (pchar ','))
            (preceded multispace0 pv))
          (pchar ']'))
       JsonValue.Array s

/-- `parse_pair`, parameterised by the value parser:
`separated_pair(preceded(multispace0, parse_str),
preceded(multispace0, char(':')), preceded(multispace0, parse_value))`. -/
def parse_pairP (pv : Parser JsonValue) : Parser (JsonValue × JsonValue) :=
  separated_pair (preceded multispace0 parse_str)
                 (preceded multispace0 (pchar ':'))
                 (preceded multispace0 pv)

/-- The closure body in `parse_object`'s `map`: a `Str` key passes
through, any other key is `panic!("key must be a string")`. -/
def keyOf : JsonValue × JsonValue → Option (List Char × JsonValue)
  | (JsonValue.Str k, v) => some (k, v)
  | _ => none

/-- Map `keyOf` over the parsed pairs; `none` means some pair hit the
panic branch. -/
def toKeyed : List (JsonValue × JsonValue) → Option (List (List Char × JsonValue))
  | [] => some []
  | p :: rest =>
    match keyOf p, toKeyed rest with
    | some kv, some kvs => some (kv :: kvs)
    | _, _ => none

/-- One `HashMap::insert`: replace the value at an existing key,
otherwise append the new binding.  We model the `HashMap` by its
association list. -/
def hmInsert (k : List Char) (v : JsonValue) :
    List (List Char × JsonValue) → List (List Char × JsonValue)
  | [] => [(k, v)]
  | (k', v') :: rest =>
    if k' = k then (k', v) :: rest else (k', v') :: hmInsert k v rest

/-- `collect::<HashMap<_, _>>()`: insert the pairs left to right, later
bindings overwriting earlier ones at the same key. -/
def hashMapOfList (l : List (List Char × JsonValue)) : List (List Char × JsonValue) :=
  l.foldl (fun m kv => hmInsert kv.1 kv.2 m) []

/-- `parse_object`, parameterised by the value parser:
`delimited(char('{'), separated_list0(preceded(multispace0, char(',')),
preceded(multispace0, parse_pair)), preceded(multispace0, char('}')))`
followed by the collecting `map` whose closure panics on a non-string
key. -/
def parse_objectP (pv : Parser JsonValue) : Parser JsonValue := fun s =>
  match (delimited (pchar '{')
          (separated_list0 (s.length + 1)
            (preceded multispace0 (pchar ','))
            (preceded multispace0 (parse_pairP pv)))
          (preceded multispace0 (pchar '}'))) s with
  | .ok rest pairs =>
    match toKeyed pairs with
    | some kvs => .ok rest (JsonValue.Object (hashMapOfList kvs))
    | none => .panic
  | .err => .err
  | .panic => .panic

/-- `parse_value` with explicit recursion fuel:
`preceded(multispace0, alt((parse_str, parse_num, parse_bool,
parse_null, parse_array, parse_object)))`. -/
def parse_valueF : Nat → Parser JsonValue
  | 0 => fun _ => .err
  | fuel + 1 =>
    preceded multispace0
      (palt parse_str
        (palt parse_num
          (palt parse_bool
            (palt parse_null
              (palt (parse_arrayP (parse_valueF fuel))
                    (parse_objectP (parse_valueF fuel)))))))

/-- `parse_value`, with fuel `input.length + 1` (always sufficient:
each recursive descent consumes at least the opening bracket). -/
def parse_value : Parser JsonValue := fun s =>
  parse_valueF (s.length + 1) s

/-- `parse_array` as used by the program. -/
def parse_array : Parser JsonValue := fun s =>
  parse_arrayP (parse_valueF (s.length + 1)) s

/-- `parse_object` as used by the program. -/
def parse_object : Parser JsonValue := fun s =>
  parse_objectP (parse_valueF (s.length + 1)) s

/-- `parse_pair` as used by the program. -/
def parse_pair : Parser (JsonValue × JsonValue) := fun s =>
  parse_pairP (parse_valueF (s.length + 1)) s

/-- `parse_json` with explicit fuel:
`terminated(parse_value, multispace0)`. -/
def parse_jsonF (fuel : Nat) : Parser JsonValue :=
  terminated (parse_valueF fuel) multispace0

/-- `parse_json`, the top-level entry point. -/
def parse_json : Parser JsonValue := fun s =>
  parse_jsonF (s.length + 1) s

/-- Modelled from the spec: the string-rendering rule of a compliant
JSON renderer.  The round-trip property (spec section 8) quantifies over
"any compliant renderer", and the source contains no renderer, so the
escaping rule is taken from the spec's escape list (section 4.4): a
compliant renderer must escape quotes, backslashes and the control
characters when rendering a string. -/
def escChar (c : Char) : List Char :=
  if c = '"' then ['\\', '"']
  else if c = '\\' then ['\\', '\\']
  else if c = '\n' then ['\\', 'n']
  else if c = '\t' then ['\\', 't']
  else if c = '\r' then ['\\', 'r']
  else [c]

/-- Modelled from the spec: a compliant renderer's output for a
`String` value — a quote, each character escaped as required, a quote. -/
def renderString (s : List Char) : List Char :=
  '"' :: ((s.map escChar).flatten ++ ['"'])

/-- A parser only ever returns a remainder that is a suffix of its
input (equivalently: the input is some consumed prefix followed by the
remainder). -/
def SuffixOK {α : Type} (p : Parser α) : Prop :=
  ∀ s r v, p s = POut.ok r v → r <:+ s

/-- A parser never hits a Rust panic, on any input. -/
def NoPanic {α : Type} (p : Parser α) : Prop :=
  ∀ s, p s ≠ POut.panic

/-- The document made of `n` opening brackets followed by `n` closing
brackets: `n` nested arrays. -/
def nestInput (n : Nat) : List Char :=
  List.replicate n '[' ++ List.replicate n ']'

/-- The value of `m + 1` nested empty-then-singleton arrays:
`nestVal 0 = Array []`, `nestVal (m+1) = Array [nestVal m]`. -/
def nestVal : Nat → JsonValue
  | 0 => JsonValue.Array []
  | m + 1 => JsonValue.Array [nestVal m]

example : parse_json "null".toList = .ok [] JsonValue.Null := rfl
example : parse_json "123".toList = .ok [] (JsonValue.Num 123) := rfl
example : parse_json "-45".toList = .ok [] (JsonValue.Num (-45)) := rfl
example : parse_json "[1,2,3]".toList =
    .ok [] (JsonValue.Array [JsonValue.Num 1, JsonValue.Num 2, JsonValue.Num 3]) := rfl
example : parse_json "[1,2,]".toList = .err := rfl

/-! ## Claim theorems on concrete documents -/

/-- C1 (counterexample): on the document `«left brace»"a":1«right brace» trailing`
the top-level entry point `parse_json` does not fail at all: it
succeeds, returning the parsed object together with the unconsumed
remainder `trailing`.  This refutes the claim that parsing fails unless
the input is fully consumed. -/
theorem c1_counterexample_trailing_succeeds :
    parse_json "\x7b\"a\":1\x7d trailing".toList =
      POut.ok "trailing".toList (JsonValue.Object [(['a'], JsonValue.Num 1)]) := rfl

/-- C1 (amended): `parse_json` parses one value and then skips trailing
whitespace, but does not require the input to be fully consumed: on the
document `«left brace»"a":1«right brace» trailing` it succeeds with the
object mapping "a" to 1 and the nonempty unconsumed remainder
`trailing` (there is no TrailingContent error in the code). -/
theorem c1_amended_no_full_consumption_required :
    parse_json "\x7b\"a\":1\x7d trailing".toList =
      POut.ok "trailing".toList (JsonValue.Object [(['a'], JsonValue.Num 1)]) ∧
    "trailing".toList ≠ [] :=
  ⟨rfl, by decide⟩

/-- C2: string parsing does not resolve backslash escapes.  On the
6-character document `"a\nb"` (quote, a, backslash, n, b, quote) the
parser returns the raw 4-character content `a`, backslash, `n`, `b` —
not the 3-character content with a newline that the claim requires.
This exhibits the spec's acknowledged gap in the source (raw copy of
the slice between the quotes). -/
theorem c2_escapes_copied_raw :
    parse_json "\"a\\nb\"".toList =
      POut.ok [] (JsonValue.Str ['a', '\\', 'n', 'b']) ∧
    (['a', '\\', 'n', 'b'] : List Char) ≠ ['a', '\n', 'b'] :=
  ⟨rfl, by decide⟩

/-- C3: duplicate object keys are last-write-wins.  Parsing
`«left brace»"a":1,"a":2«right brace»` succeeds and the resulting
object maps the key "a" to `Num 2` — the later member overwrote the
earlier one when the pairs were collected into the map. -/
theorem c3_duplicate_key_last_write_wins :
    parse_json "\x7b\"a\":1,\"a\":2\x7d".toList =
      POut.ok [] (JsonValue.Object [(['a'], JsonValue.Num 2)]) := rfl

/-- C7: arrays are comma-separated lists and a trailing comma is
rejected: `[1,2,3]` parses to the three-element array in order, and
`[1,2,]` fails (the dangling comma is not consumed by the list, so the
closing bracket match fails). -/
theorem c7_array_list_and_trailing_comma :
    parse_json "[1,2,3]".toList =
      POut.ok [] (JsonValue.Array [JsonValue.Num 1, JsonValue.Num 2, JsonValue.Num 3]) ∧
    parse_json "[1,2,]".toList = POut.err :=
  ⟨rfl, rfl⟩

/-- C10: whitespace is accepted before array elements and before the
separating commas, but not before the closing bracket, while the object
parser does accept whitespace before its closing brace: `[ 1, 2]` and
`[1 ,2]` parse, `[ ]` and `[1 ]` fail, and `«left brace» «right brace»`
parses to the empty object. -/
theorem c10_whitespace_before_closing_delimiters :
    parse_json "[ 1, 2]".toList =
      POut.ok [] (JsonValue.Array [JsonValue.Num 1, JsonValue.Num 2]) ∧
    parse_json "[1 ,2]".toList =
      POut.ok [] (JsonValue.Array [JsonValue.Num 1, JsonValue.Num 2]) ∧
    parse_json "[ ]".toList = POut.err ∧
    parse_json "[1 ]".toList = POut.err ∧
    parse_json "\x7b \x7d".toList = POut.ok [] (JsonValue.Object []) :=
  ⟨rfl, rfl, rfl, rfl, rfl⟩

/-! ## The remainder of every successful parse is a suffix of the input -/

theorem suffixOK_pchar (c : Char) : SuffixOK (pchar c) := by
  intro s r v h
  cases s with
  | nil => exact POut.noConfusion h
  | cons a t =>
    by_cases hac : a = c
    · have he : pchar c (a :: t) = POut.ok t c := by simp [pchar, hac]
      rw [he] at h
      cases h
      exact ⟨[a], rfl⟩
    · have he : pchar c (a :: t) = POut.err := by simp [pchar, hac]
      rw [he] at h
      exact POut.noConfusion h

theorem suffixOK_ptag (t : List Char) : SuffixOK (ptag t) := by
  intro s r v h
  unfold ptag at h
  split at h
  · cases h
    exact List.drop_suffix _ _
  · cases h

theorem suffixOK_take_while (p : Char → Bool) : SuffixOK (take_while p) := by
  intro s r v h
  unfold take_while at h
  cases h
  exact List.dropWhile_suffix p

theorem suffixOK_digit1 : SuffixOK digit1 := by
  intro s r v h
  unfold digit1 at h
  split at h
  · cases h
  · cases h
    exact List.dropWhile_suffix _

theorem suffixOK_multispace0 : SuffixOK multispace0 :=
  suffixOK_take_while isMultispace

theorem suffixOK_pmap {α β : Type} {p : Parser α} (f : α → β) (hp : SuffixOK p) :
    SuffixOK (pmap p f) := by
  intro s r v h
  unfold pmap at h
  cases hps : p s with
  | ok r1 v1 =>
    simp only [hps] at h
    cases h
    exact hp _ _ _ hps
  | err => simp only [hps] at h; cases h
  | panic => simp only [hps] at h; cases h

theorem suffixOK_popt {α : Type} {p : Parser α} (hp : SuffixOK p) :
    SuffixOK (popt p) := by
  intro s r v h
  unfold popt at h
  cases hps : p s with
  | ok r1 v1 =>
    simp only [hps] at h
    cases h
    exact hp _ _ _ hps
  | err =>
    simp only [hps] at h
    cases h
    exact List.suffix_refl _
  | panic => simp only [hps] at h; cases h

theorem suffixOK_palt {α : Type} {p q : Parser α} (hp : SuffixOK p) (hq : SuffixOK q) :
    SuffixOK (palt p q) := by
  intro s r v h
  unfold palt at h
  cases hps : p s with
  | ok r1 v1 =>
    simp only [hps] at h
    cases h
    exact hp _ _ _ hps
  | err =>
    simp only [hps] at h
    exact hq s r v h
  | panic => simp only [hps] at h; cases h

theorem suffixOK_ppair {α β : Type} {p : Parser α} {q : Parser β}
    (hp : SuffixOK p) (hq : SuffixOK q) : SuffixOK (ppair p q) := by
  intro s r v h
  unfold ppair at h
  cases hps : p s with
  | ok r1 v1 =>
    simp only [hps] at h
    cases hqs : q r1 with
    | ok r2 v2 =>
      simp only [hqs] at h
      cases h
      exact (hq _ _ _ hqs).trans (hp _ _ _ hps)
    | err => simp only [hqs] at h; cases h
    | panic => simp only [hqs] at h; cases h
  | err => simp only [hps] at h; cases h
  | panic => simp only [hps] at h; cases h

theorem suffixOK_preceded {α β : Type} {p : Parser α} {q : Parser β}
    (hp : SuffixOK p) (hq : SuffixOK q) : SuffixOK (preceded p q) :=
  suffixOK_pmap _ (suffixOK_ppair hp hq)

theorem suffixOK_terminated {α β : Type} {p : Parser α} {q : Parser β}
    (hp : SuffixOK p) (hq : SuffixOK q) : SuffixOK (terminated p q) :=
  suffixOK_pmap _ (suffixOK_ppair hp hq)

theorem suffixOK_delimited {α β γ : Type} {a : Parser α} {b : Parser β} {c : Parser γ}
    (ha : SuffixOK a) (hb : SuffixOK b) (hc : SuffixOK c) :
    SuffixOK (delimited a b c) :=
  suffixOK_terminated (suffixOK_preceded ha hb) hc

theorem suffixOK_separated_pair {α β γ : Type} {a : Parser α} {sep : Parser β}
    {b : Parser γ} (ha : SuffixOK a) (hsep : SuffixOK sep) (hb : SuffixOK b) :
    SuffixOK (separated_pair a sep b) :=
  suffixOK_ppair (suffixOK_terminated ha hsep) hb

theorem suffixOK_recognize {α : Type} {p : Parser α} (hp : SuffixOK p) :
    SuffixOK (recognize p) := by
  intro s r v h
  unfold recognize at h
  cases hps : p s with
  | ok r1 v1 =>
    simp only [hps] at h
    cases h
    exact hp _ _ _ hps
  | err => simp only [hps] at h; cases h
  | panic => simp only [hps] at h; cases h

theorem sepLoop_suffix {α β : Type} {sep : Parser α} {elem : Parser β}
    (hsep : SuffixOK sep) (helem : SuffixOK elem) :
    ∀ (fuel : Nat) (i : List Char) (acc : List β) (r : List Char) (l : List β),
      sepLoop sep elem fuel i acc = POut.ok r l → r <:+ i := by
  intro fuel
  induction fuel with
  | zero => intro i acc r l h; cases h
  | succ n ih =>
    intro i acc r l h
    unfold sepLoop at h
    cases hsi : sep i with
    | panic => simp only [hsi] at h; cases h
    | err =>
      simp only [hsi] at h
      cases h
      exact List.suffix_refl _
    | ok i1 a =>
      simp only [hsi] at h
      split at h
      · cases h
      · cases hei : elem i1 with
        | panic => simp only [hei] at h; cases h
        | err =>
          simp only [hei] at h
          cases h
          exact List.suffix_refl _
        | ok i2 o =>
          simp only [hei] at h
          exact ((ih i2 (acc ++ [o]) r l h).trans (helem i1 i2 o hei)).trans
            (hsep i i1 a hsi)

theorem suffixOK_separated_list0 {α β : Type} {sep : Parser α} {elem : Parser β}
    (hsep : SuffixOK sep) (helem : SuffixOK elem) (fuel : Nat) :
    SuffixOK (separated_list0 fuel sep elem) := by
  intro i r l h
  unfold separated_list0 at h
  cases hei : elem i with
  | panic => simp only [hei] at h; cases h
  | err =>
    simp only [hei] at h
    cases h
    exact List.suffix_refl _
  | ok i1 o =>
    simp only [hei] at h
    exact (sepLoop_suffix hsep helem fuel i1 [o] r l h).trans (helem i i1 o hei)

theorem suffixOK_parse_null : SuffixOK parse_null :=
  suffixOK_pmap _ (suffixOK_ptag _)

theorem suffixOK_parse_bool : SuffixOK parse_bool :=
  suffixOK_palt (suffixOK_pmap _ (suffixOK_ptag _)) (suffixOK_pmap _ (suffixOK_ptag _))

theorem suffixOK_parse_str : SuffixOK parse_str :=
  suffixOK_pmap _
    (suffixOK_delimited (suffixOK_pchar _) (suffixOK_take_while _) (suffixOK_pchar _))

theorem suffixOK_parse_num : SuffixOK parse_num := by
  intro s r v h
  unfold parse_num at h
  cases hrec : recognize (ppair (popt (pchar '-')) digit1) s with
  | ok rest txt =>
    simp only [hrec] at h
    cases hr : rustParseF64 txt with
    | some n =>
      simp only [hr] at h
      cases h
      exact suffixOK_recognize
        (suffixOK_ppair (suffixOK_popt (suffixOK_pchar _)) suffixOK_digit1) _ _ _ hrec
    | none => simp only [hr] at h; cases h
  | err => simp only [hrec] at h; cases h
  | panic => simp only [hrec] at h; cases h

theorem suffixOK_parse_arrayP {pv : Parser JsonValue} (hpv : SuffixOK pv) :
    SuffixOK (parse_arrayP pv) := by
  intro s r v h
  unfold parse_arrayP at h
  exact suffixOK_pmap _
    (suffixOK_delimited (suffixOK_pchar _)
      (suffixOK_separated_list0
        (suffixOK_preceded suffixOK_multispace0 (suffixOK_pchar _))
        (suffixOK_preceded suffixOK_multispace0 hpv) _)
      (suffixOK_pchar _)) s r v h

theorem suffixOK_parse_pairP {pv : Parser JsonValue} (hpv : SuffixOK pv) :
    SuffixOK (parse_pairP pv) := by
  unfold parse_pairP
  exact suffixOK_separated_pair
    (suffixOK_preceded suffixOK_multispace0 suffixOK_parse_str)
    (suffixOK_preceded suffixOK_multispace0 (suffixOK_pchar _))
    (suffixOK_preceded suffixOK_multispace0 hpv)

theorem suffixOK_parse_objectP {pv : Parser JsonValue} (hpv : SuffixOK pv) :
    SuffixOK (parse_objectP pv) := by
  intro s r v h
  unfold parse_objectP at h
  cases hdel : (delimited (pchar '{')
      (separated_list0 (s.length + 1)
        (preceded multispace0 (pchar ','))
        (preceded multispace0 (parse_pairP pv)))
      (preceded multispace0 (pchar '}'))) s with
  | ok rest pairs =>
    simp only [hdel] at h
    cases ht : toKeyed pairs with
    | some kvs =>
      simp only [ht] at h
      cases h
      exact suffixOK_delimited (suffixOK_pchar _)
        (suffixOK_separated_list0
          (suffixOK_preceded suffixOK_multispace0 (suffixOK_pchar _))
          (suffixOK_preceded suffixOK_multispace0 (suffixOK_parse_pairP hpv)) _)
        (suffixOK_preceded suffixOK_multispace0 (suffixOK_pchar _)) _ _ _ hdel
    | none => simp only [ht] at h; cases h
  | err => simp only [hdel] at h; cases h
  | panic => simp only [hdel] at h; cases h

theorem suffixOK_parse_valueF : ∀ fuel, SuffixOK (parse_valueF fuel) := by
  intro fuel
  induction fuel with
  | zero => intro s r v h; cases h
  | succ n ih =>
    show SuffixOK (preceded multispace0
      (palt parse_str
        (palt parse_num
          (palt parse_bool
            (palt parse_null
              (palt (parse_arrayP (parse_valueF n))
                    (parse_objectP (parse_valueF n))))))))
    exact suffixOK_preceded suffixOK_multispace0
      (suffixOK_palt suffixOK_parse_str
        (suffixOK_palt suffixOK_parse_num
          (suffixOK_palt suffixOK_parse_bool
            (suffixOK_palt suffixOK_parse_null
              (suffixOK_palt (suffixOK_parse_arrayP ih) (suffixOK_parse_objectP ih))))))

theorem suffixOK_parse_value : SuffixOK parse_value := by
  intro s r v h
  exact suffixOK_parse_valueF (s.length + 1) s r v h

theorem suffixOK_parse_array : SuffixOK parse_array := by
  intro s r v h
  exact suffixOK_parse_arrayP (suffixOK_parse_valueF (s.length + 1)) s r v h

theorem suffixOK_parse_object : SuffixOK parse_object := by
  intro s r v h
  exact suffixOK_parse_objectP (suffixOK_parse_valueF (s.length + 1)) s r v h

theorem suffixOK_parse_pair : SuffixOK parse_pair := by
  intro s r v h
  exact suffixOK_parse_pairP (suffixOK_parse_valueF (s.length + 1)) s r v h

theorem suffixOK_parse_jsonF (fuel : Nat) : SuffixOK (parse_jsonF fuel) :=
  suffixOK_terminated (suffixOK_parse_valueF fuel) suffixOK_multispace0

theorem suffixOK_parse_json : SuffixOK parse_json := by
  intro s r v h
  exact suffixOK_parse_jsonF (s.length + 1) s r v h

/-- C9: every parsing function, whenever it succeeds, returns a
remainder that is a suffix of its input (`r <:+ s` unfolds to: some
consumed prefix concatenated with the remainder equals the input), so
no parser fabricates, reorders or re-reads input. -/
theorem c9_remainder_is_input_suffix :
    (∀ fuel, SuffixOK (parse_valueF fuel)) ∧ SuffixOK parse_value ∧
    SuffixOK parse_null ∧ SuffixOK parse_bool ∧ SuffixOK parse_num ∧
    SuffixOK parse_str ∧ SuffixOK parse_array ∧ SuffixOK parse_object ∧
    SuffixOK parse_json :=
  ⟨suffixOK_parse_valueF, suffixOK_parse_value, suffixOK_parse_null,
   suffixOK_parse_bool, suffixOK_parse_num, suffixOK_parse_str,
   suffixOK_parse_array, suffixOK_parse_object, suffixOK_parse_json⟩

/-- Witness for C9: instantiating the suffix property of `parse_json`
on the concrete document `[1,2]` (fully consumed, so the returned
remainder, the empty list, is a suffix of the input). -/
theorem c9_remainder_is_input_suffix_witness :
    ([] : List Char) <:+ "[1,2]".toList :=
  c9_remainder_is_input_suffix.2.2.2.2.2.2.2.2 "[1,2]".toList []
    (JsonValue.Array [JsonValue.Num 1, JsonValue.Num 2]) rfl

/-! ## Number parsing: helper lemmas -/

/-- `takeWhile`/`dropWhile` on a block of matching elements followed by
a non-matching (or empty) tail. -/
theorem takeWhile_append_block {α : Type} {p : α → Bool} :
    ∀ (ds rest : List α), (∀ c ∈ ds, p c = true) →
      (∀ c, rest.head? = some c → p c = false) →
      (ds ++ rest).takeWhile p = ds ∧ (ds ++ rest).dropWhile p = rest := by
  intro ds
  induction ds with
  | nil =>
    intro rest _ h2
    cases rest with
    | nil => exact ⟨rfl, rfl⟩
    | cons r t =>
      have hr := h2 r rfl
      exact ⟨by simp [List.takeWhile_cons, hr], by simp [List.dropWhile_cons, hr]⟩
  | cons d t ih =>
    intro rest h1 h2
    have hd := h1 d (by simp)
    have ih' := ih rest (fun c hc => h1 c (by simp [hc])) h2
    exact ⟨by simp [List.takeWhile_cons, hd, ih'.1], by simp [List.dropWhile_cons, hd, ih'.2]⟩

/-- `digitsVal` succeeds on every nonempty all-digit list, returning the
base-10 fold. -/
theorem digitsVal_of_digits (ds : List Char) (h1 : ds ≠ [])
    (h2 : ∀ c ∈ ds, c.isDigit = true) :
    digitsVal ds = some (ds.foldl (fun a c => a * 10 + (c.toNat - 48)) 0) := by
  simp only [digitsVal, List.isEmpty_iff]
  rw [if_neg h1, if_pos (List.all_eq_true.mpr h2)]

/-- The modelled Rust `f64` conversion succeeds on every nonempty
all-digit slice. -/
theorem rustParseF64_digits (ds : List Char) (h1 : ds ≠ [])
    (h2 : ∀ c ∈ ds, c.isDigit = true) :
    rustParseF64 ds =
      some ((ds.foldl (fun a c => a * 10 + (c.toNat - 48)) 0 : Nat) : Int) := by
  cases ds with
  | nil => exact absurd rfl h1
  | cons c t =>
    have hc : c.isDigit = true := h2 c (by simp)
    have hcm : ¬ c = '-' := by
      intro h
      rw [h] at hc
      exact absurd hc (by decide)
    have hm : rustParseF64 (c :: t) =
        if c = '-' then (digitsVal t).map (fun n => -(n : Int))
        else (digitsVal (c :: t)).map (fun n => (n : Int)) := rfl
    rw [hm, if_neg hcm, digitsVal_of_digits (c :: t) h1 h2]
    rfl

/-- The modelled Rust `f64` conversion succeeds on a minus sign followed
by a nonempty all-digit slice. -/
theorem rustParseF64_neg_digits (ds : List Char) (h1 : ds ≠ [])
    (h2 : ∀ c ∈ ds, c.isDigit = true) :
    rustParseF64 ('-' :: ds) =
      some (-((ds.foldl (fun a c => a * 10 + (c.toNat - 48)) 0 : Nat) : Int)) := by
  have hm : rustParseF64 ('-' :: ds) =
      if '-' = '-' then (digitsVal ds).map (fun n => -(n : Int))
      else (digitsVal ('-' :: ds)).map (fun n => (n : Int)) := rfl
  rw [hm, if_pos rfl, digitsVal_of_digits ds h1 h2]
  rfl

/-- `digit1` on a nonempty digit block followed by a non-digit tail
consumes exactly the block. -/
theorem digit1_block (ds rest : List Char) (h1 : ds ≠ [])
    (h2 : ∀ c ∈ ds, c.isDigit = true)
    (h3 : ∀ c, rest.head? = some c → c.isDigit = false) :
    digit1 (ds ++ rest) = .ok rest ds := by
  obtain ⟨htw, hdw⟩ := takeWhile_append_block ds rest h2 h3
  unfold digit1
  rw [htw, hdw, if_neg h1]

/-- `parse_num` on an optional minus sign, a nonempty digit block and a
non-digit tail: it succeeds, consumes exactly the sign-and-digits
prefix, and returns the (signed) decimal value. -/
theorem parse_num_block (neg : Bool) (ds rest : List Char) (h1 : ds ≠ [])
    (h2 : ∀ c ∈ ds, c.isDigit = true)
    (h3 : ∀ c, rest.head? = some c → c.isDigit = false) :
    parse_num ((cond neg ['-'] []) ++ ds ++ rest) =
      POut.ok rest (JsonValue.Num
        (cond neg (-((ds.foldl (fun a c => a * 10 + (c.toNat - 48)) 0 : Nat) : Int))
                  ((ds.foldl (fun a c => a * 10 + (c.toNat - 48)) 0 : Nat) : Int))) := by
  have hdig := digit1_block ds rest h1 h2 h3
  cases neg with
  | false =>
    obtain ⟨d, t, rfl⟩ : ∃ d t, ds = d :: t := by
      cases ds with
      | nil => exact absurd rfl h1
      | cons d t => exact ⟨d, t, rfl⟩
    have hd : d.isDigit = true := h2 d (by simp)
    have hdm : ¬ d = '-' := by
      intro h
      rw [h] at hd
      exact absurd hd (by decide)
    have hpopt : popt (pchar '-') ((d :: t) ++ rest) = .ok ((d :: t) ++ rest) none := by
      simp [popt, pchar, hdm]
    have hpair : ppair (popt (pchar '-')) digit1 ((d :: t) ++ rest) =
        .ok rest (none, d :: t) := by
      simp only [ppair, hpopt, hdig]
    have htake : ((d :: t) ++ rest).take (((d :: t) ++ rest).length - rest.length) =
        d :: t := List.take_left' (by simp only [List.length_cons, List.length_append]; omega)
    have hrec : recognize (ppair (popt (pchar '-')) digit1) ((d :: t) ++ rest) =
        .ok rest (d :: t) := by
      simp only [recognize, hpair, htake]
    simp only [cond, List.nil_append, parse_num, hrec, rustParseF64_digits (d :: t) h1 h2]
  | true =>
    have hpopt : popt (pchar '-') (('-' :: ds) ++ rest) = .ok (ds ++ rest) (some '-') := by
      simp [popt, pchar]
    have hpair : ppair (popt (pchar '-')) digit1 (('-' :: ds) ++ rest) =
        .ok rest (some '-', ds) := by
      simp only [List.cons_append] at hpopt ⊢
      simp only [ppair, hpopt, hdig]
    have htake : (('-' :: ds) ++ rest).take ((('-' :: ds) ++ rest).length - rest.length) =
        '-' :: ds := List.take_left' (by simp only [List.length_cons, List.length_append]; omega)
    have hrec : recognize (ppair (popt (pchar '-')) digit1) (('-' :: ds) ++ rest) =
        .ok rest ('-' :: ds) := by
      simp only [recognize, hpair, htake]
    have : (cond true ['-'] []) ++ ds ++ rest = ('-' :: ds) ++ rest := by simp
    rw [this]
    simp only [cond, parse_num, hrec, rustParseF64_neg_digits ds h1 h2]

/-- C6: number parsing accepts an optional leading minus sign followed
by one or more decimal digits, consumes exactly that prefix, and
returns the signed decimal value (held in the `f64` payload; exact at
these magnitudes); in particular `123` parses to `Num 123` and `-45`
to `Num (-45)`. -/
theorem c6_number_sign_digits :
    (∀ (neg : Bool) (ds rest : List Char),
        ds ≠ [] →
        (∀ c ∈ ds, c.isDigit = true) →
        (∀ c, rest.head? = some c → c.isDigit = false) →
        parse_num ((cond neg ['-'] []) ++ ds ++ rest) =
          POut.ok rest (JsonValue.Num
            (cond neg (-((ds.foldl (fun a c => a * 10 + (c.toNat - 48)) 0 : Nat) : Int))
                      ((ds.foldl (fun a c => a * 10 + (c.toNat - 48)) 0 : Nat) : Int)))) ∧
    parse_json "123".toList = POut.ok [] (JsonValue.Num 123) ∧
    parse_json "-45".toList = POut.ok [] (JsonValue.Num (-45)) :=
  ⟨parse_num_block, rfl, rfl⟩

/-- Witness for C6: the general statement applied to the concrete input
`-45` (sign `true`, digits `4`,`5`, empty tail). -/
theorem c6_number_sign_digits_witness :
    parse_num ('-' :: ['4', '5']) = POut.ok [] (JsonValue.Num (-45)) := by
  have h := c6_number_sign_digits.1 true ['4', '5'] [] (by decide) (by decide) (by simp)
  simpa using h

/-! ## Inversion lemmas -/

theorem pchar_ok_inv {c : Char} {s r : List Char} {v : Char}
    (h : pchar c s = POut.ok r v) : s = c :: r ∧ v = c := by
  cases s with
  | nil => exact POut.noConfusion h
  | cons a t =>
    by_cases hac : a = c
    · have he : pchar c (a :: t) = POut.ok t c := by simp [pchar, hac]
      rw [he] at h
      cases h
      exact ⟨by rw [hac], rfl⟩
    · have he : pchar c (a :: t) = POut.err := by simp [pchar, hac]
      rw [he] at h
      exact POut.noConfusion h

theorem popt_ok_inv {α : Type} {p : Parser α} {s r : List Char} {v : Option α}
    (h : popt p s = POut.ok r v) :
    (∃ w, v = some w ∧ p s = POut.ok r w) ∨ (v = none ∧ r = s ∧ p s = POut.err) := by
  unfold popt at h
  cases hps : p s with
  | ok r1 v1 =>
    simp only [hps] at h
    cases h
    exact Or.inl ⟨v1, rfl, rfl⟩
  | err =>
    simp only [hps] at h
    cases h
    exact Or.inr ⟨rfl, rfl, rfl⟩
  | panic => simp only [hps] at h; exact POut.noConfusion h

theorem digit1_ok_inv {s r v : List Char} (h : digit1 s = POut.ok r v) :
    v = s.takeWhile Char.isDigit ∧ r = s.dropWhile Char.isDigit ∧ v ≠ [] := by
  unfold digit1 at h
  split at h
  · exact POut.noConfusion h
  · rename_i hne
    cases h
    exact ⟨rfl, rfl, hne⟩

theorem pmap_ok_inv {α β : Type} {p : Parser α} {f : α → β} {s r : List Char} {v : β}
    (h : pmap p f s = POut.ok r v) : ∃ w, p s = POut.ok r w ∧ v = f w := by
  unfold pmap at h
  cases hps : p s with
  | ok r1 v1 =>
    simp only [hps] at h
    cases h
    exact ⟨v1, rfl, rfl⟩
  | err => simp only [hps] at h; exact POut.noConfusion h
  | panic => simp only [hps] at h; exact POut.noConfusion h

theorem ppair_ok_inv {α β : Type} {p : Parser α} {q : Parser β} {s r : List Char}
    {w : α × β} (h : ppair p q s = POut.ok r w) :
    ∃ r1, p s = POut.ok r1 w.1 ∧ q r1 = POut.ok r w.2 := by
  unfold ppair at h
  cases hps : p s with
  | ok r1 v1 =>
    simp only [hps] at h
    cases hqs : q r1 with
    | ok r2 v2 =>
      simp only [hqs] at h
      cases h
      exact ⟨r1, rfl, hqs⟩
    | err => simp only [hqs] at h; exact POut.noConfusion h
    | panic => simp only [hqs] at h; exact POut.noConfusion h
  | err => simp only [hps] at h; exact POut.noConfusion h
  | panic => simp only [hps] at h; exact POut.noConfusion h

theorem preceded_ok_inv {α β : Type} {p : Parser α} {q : Parser β} {s r : List Char}
    {v : β} (h : preceded p q s = POut.ok r v) : ∃ s1, q s1 = POut.ok r v := by
  obtain ⟨w, hw, hv⟩ := pmap_ok_inv h
  obtain ⟨r1, _, hq1⟩ := ppair_ok_inv hw
  exact ⟨r1, by rw [hv]; exact hq1⟩

theorem terminated_ok_inv {α β : Type} {p : Parser α} {q : Parser β} {s r : List Char}
    {v : α} (h : terminated p q s = POut.ok r v) : ∃ r1, p s = POut.ok r1 v := by
  obtain ⟨w, hw, hv⟩ := pmap_ok_inv h
  obtain ⟨r1, hp1, _⟩ := ppair_ok_inv hw
  exact ⟨r1, by rw [hv]; exact hp1⟩

theorem parse_str_ok_shape {s r : List Char} {v : JsonValue}
    (h : parse_str s = POut.ok r v) : ∃ ks, v = JsonValue.Str ks := by
  obtain ⟨w, _, hv⟩ := pmap_ok_inv h
  exact ⟨w, hv⟩

theorem parse_pairP_key {pv : Parser JsonValue} {s r : List Char}
    {k w : JsonValue} (h : parse_pairP pv s = POut.ok r (k, w)) :
    ∃ ks, k = JsonValue.Str ks := by
  unfold parse_pairP separated_pair at h
  obtain ⟨r1, h1, _⟩ := ppair_ok_inv h
  obtain ⟨r2, h3⟩ := terminated_ok_inv h1
  obtain ⟨s1, h4⟩ := preceded_ok_inv h3
  exact parse_str_ok_shape h4

/-! ## Panic freedom -/

theorem noPanic_pchar (c : Char) : NoPanic (pchar c) := by
  intro s h
  cases s with
  | nil => exact POut.noConfusion h
  | cons a t =>
    by_cases hac : a = c
    · have he : pchar c (a :: t) = POut.ok t c := by simp [pchar, hac]
      rw [he] at h
      exact POut.noConfusion h
    · have he : pchar c (a :: t) = POut.err := by simp [pchar, hac]
      rw [he] at h
      exact POut.noConfusion h

theorem noPanic_ptag (t : List Char) : NoPanic (ptag t) := by
  intro s h
  unfold ptag at h
  split at h
  · exact POut.noConfusion h
  · exact POut.noConfusion h

theorem noPanic_take_while (p : Char → Bool) : NoPanic (take_while p) := by
  intro s h
  exact POut.noConfusion h

theorem noPanic_digit1 : NoPanic digit1 := by
  intro s h
  unfold digit1 at h
  split at h
  · exact POut.noConfusion h
  · exact POut.noConfusion h

theorem noPanic_multispace0 : NoPanic multispace0 :=
  noPanic_take_while isMultispace

theorem noPanic_pmap {α β : Type} {p : Parser α} (f : α → β) (hp : NoPanic p) :
    NoPanic (pmap p f) := by
  intro s h
  unfold pmap at h
  cases hps : p s with
  | ok r1 v1 => simp only [hps] at h; exact POut.noConfusion h
  | err => simp only [hps] at h; exact POut.noConfusion h
  | panic => exact hp s hps

theorem noPanic_popt {α : Type} {p : Parser α} (hp : NoPanic p) : NoPanic (popt p) := by
  intro s h
  unfold popt at h
  cases hps : p s with
  | ok r1 v1 => simp only [hps] at h; exact POut.noConfusion h
  | err => simp only [hps] at h; exact POut.noConfusion h
  | panic => exact hp s hps

theorem noPanic_palt {α : Type} {p q : Parser α} (hp : NoPanic p) (hq : NoPanic q) :
    NoPanic (palt p q) := by
  intro s h
  unfold palt at h
  cases hps : p s with
  | ok r1 v1 => simp only [hps] at h; exact POut.noConfusion h
  | err => simp only [hps] at h; exact hq s h
  | panic => exact hp s hps

theorem noPanic_ppair {α β : Type} {p : Parser α} {q : Parser β}
    (hp : NoPanic p) (hq : NoPanic q) : NoPanic (ppair p q) := by
  intro s h
  unfold ppair at h
  cases hps : p s with
  | ok r1 v1 =>
    simp only [hps] at h
    cases hqs : q r1 with
    | ok r2 v2 => simp only [hqs] at h; exact POut.noConfusion h
    | err => simp only [hqs] at h; exact POut.noConfusion h
    | panic => exact hq r1 hqs
  | err => simp only [hps] at h; exact POut.noConfusion h
  | panic => exact hp s hps

theorem noPanic_preceded {α β : Type} {p : Parser α} {q : Parser β}
    (hp : NoPanic p) (hq : NoPanic q) : NoPanic (preceded p q) :=
  noPanic_pmap _ (noPanic_ppair hp hq)

theorem noPanic_terminated {α β : Type} {p : Parser α} {q : Parser β}
    (hp : NoPanic p) (hq : NoPanic q) : NoPanic (terminated p q) :=
  noPanic_pmap _ (noPanic_ppair hp hq)

theorem noPanic_delimited {α β γ : Type} {a : Parser α} {b : Parser β} {c : Parser γ}
    (ha : NoPanic a) (hb : NoPanic b) (hc : NoPanic c) : NoPanic (delimited a b c) :=
  noPanic_terminated (noPanic_preceded ha hb) hc

theorem noPanic_separated_pair {α β γ : Type} {a : Parser α} {sep : Parser β}
    {b : Parser γ} (ha : NoPanic a) (hsep : NoPanic sep) (hb : NoPanic b) :
    NoPanic (separated_pair a sep b) :=
  noPanic_ppair (noPanic_terminated ha hsep) hb

theorem noPanic_recognize {α : Type} {p : Parser α} (hp : NoPanic p) :
    NoPanic (recognize p) := by
  intro s h
  unfold recognize at h
  cases hps : p s with
  | ok r1 v1 => simp only [hps] at h; exact POut.noConfusion h
  | err => simp only [hps] at h; exact POut.noConfusion h
  | panic => exact hp s hps

theorem sepLoop_noPanic {α β : Type} {sep : Parser α} {elem : Parser β}
    (hsep : NoPanic sep) (helem : NoPanic elem) :
    ∀ (fuel : Nat) (i : List Char) (acc : List β),
      sepLoop sep elem fuel i acc ≠ POut.panic := by
  intro fuel
  induction fuel with
  | zero => intro i acc h; exact POut.noConfusion h
  | succ n ih =>
    intro i acc h
    unfold sepLoop at h
    cases hsi : sep i with
    | panic => exact hsep i hsi
    | err => simp only [hsi] at h; exact POut.noConfusion h
    | ok i1 a =>
      simp only [hsi] at h
      split at h
      · exact POut.noConfusion h
      · cases hei : elem i1 with
        | panic => exact helem i1 hei
        | err => simp only [hei] at h; exact POut.noConfusion h
        | ok i2 o =>
          simp only [hei] at h
          exact ih i2 (acc ++ [o]) h

theorem noPanic_separated_list0 {α β : Type} {sep : Parser α} {elem : Parser β}
    (hsep : NoPanic sep) (helem : NoPanic elem) (fuel : Nat) :
    NoPanic (separated_list0 fuel sep elem) := by
  intro i h
  unfold separated_list0 at h
  cases hei : elem i with
  | panic => exact helem i hei
  | err => simp only [hei] at h; exact POut.noConfusion h
  | ok i1 o =>
    simp only [hei] at h
    exact sepLoop_noPanic hsep helem fuel i1 [o] h

theorem noPanic_parse_null : NoPanic parse_null :=
  noPanic_pmap _ (noPanic_ptag _)

theorem noPanic_parse_bool : NoPanic parse_bool :=
  noPanic_palt (noPanic_pmap _ (noPanic_ptag _)) (noPanic_pmap _ (noPanic_ptag _))

theorem noPanic_parse_str : NoPanic parse_str :=
  noPanic_pmap _
    (noPanic_delimited (noPanic_pchar _) (noPanic_take_while _) (noPanic_pchar _))

/-- The slice returned by `recognize(pair(opt(char('-')), digit1))` is
always an optional minus sign followed by a nonempty digit block, so the
modelled Rust conversion succeeds on it: the `.unwrap()` never fires. -/
theorem num_recognize_converts {s rest txt : List Char}
    (h : recognize (ppair (popt (pchar '-')) digit1) s = POut.ok rest txt) :
    ∃ n, rustParseF64 txt = some n := by
  unfold recognize at h
  cases hpp : ppair (popt (pchar '-')) digit1 s with
  | err => simp only [hpp] at h; exact POut.noConfusion h
  | panic => simp only [hpp] at h; exact POut.noConfusion h
  | ok r1 v1 =>
    simp only [hpp] at h
    injection h with h1 h2
    subst h2
    obtain ⟨r2, hpo, hd⟩ := ppair_ok_inv hpp
    obtain ⟨hv3, hr3, hne⟩ := digit1_ok_inv hd
    have hall : ∀ c ∈ v1.2, c.isDigit = true := by
      intro c hc
      rw [hv3] at hc
      exact List.mem_takeWhile_imp hc
    have hr2eq : r2 = v1.2 ++ r1 := by
      rw [hv3, hr3]
      exact (List.takeWhile_append_dropWhile _ _).symm
    rcases popt_ok_inv hpo with ⟨w, _, hpc⟩ | ⟨_, hr2s, _⟩
    · obtain ⟨hs, _⟩ := pchar_ok_inv hpc
      have hseq : s = ('-' :: v1.2) ++ r1 := by
        rw [hs, hr2eq]
        rfl
      have htake : s.take (s.length - r1.length) = '-' :: v1.2 := by
        rw [hseq]
        exact List.take_left' (by simp only [List.length_cons, List.length_append]; omega)
      rw [htake]
      exact ⟨_, rustParseF64_neg_digits v1.2 hne hall⟩
    · have hseq : s = v1.2 ++ r1 := by
        rw [← hr2s]
        exact hr2eq
      have htake : s.take (s.length - r1.length) = v1.2 := by
        rw [hseq]
        exact List.take_left' (by simp only [List.length_append]; omega)
      rw [htake]
      exact ⟨_, rustParseF64_digits v1.2 hne hall⟩

theorem noPanic_parse_num : NoPanic parse_num := by
  intro s h
  unfold parse_num at h
  cases hrec : recognize (ppair (popt (pchar '-')) digit1) s with
  | err => simp only [hrec] at h; exact POut.noConfusion h
  | panic =>
    exact noPanic_recognize
      (noPanic_ppair (noPanic_popt (noPanic_pchar _)) noPanic_digit1) s hrec
  | ok rest txt =>
    simp only [hrec] at h
    obtain ⟨n, hn⟩ := num_recognize_converts hrec
    simp only [hn] at h
    exact POut.noConfusion h

theorem noPanic_parse_pairP {pv : Parser JsonValue} (hpv : NoPanic pv) :
    NoPanic (parse_pairP pv) :=
  noPanic_separated_pair
    (noPanic_preceded noPanic_multispace0 noPanic_parse_str)
    (noPanic_preceded noPanic_multispace0 (noPanic_pchar _))
    (noPanic_preceded noPanic_multispace0 hpv)

theorem noPanic_parse_arrayP {pv : Parser JsonValue} (hpv : NoPanic pv) :
    NoPanic (parse_arrayP pv) := by
  intro s h
  unfold parse_arrayP at h
  exact noPanic_pmap _
    (noPanic_delimited (noPanic_pchar _)
      (noPanic_separated_list0
        (noPanic_preceded noPanic_multispace0 (noPanic_pchar _))
        (noPanic_preceded noPanic_multispace0 hpv) _)
      (noPanic_pchar _)) s h

theorem sepLoop_mem {α β : Type} {sep : Parser α} {elem : Parser β} {P : β → Prop}
    (helem : ∀ s r v, elem s = POut.ok r v → P v) :
    ∀ (fuel : Nat) (i : List Char) (acc : List β) (r : List Char) (l : List β),
      (∀ x ∈ acc, P x) → sepLoop sep elem fuel i acc = POut.ok r l →
      ∀ x ∈ l, P x := by
  intro fuel
  induction fuel with
  | zero => intro i acc r l _ h; exact POut.noConfusion h
  | succ n ih =>
    intro i acc r l hacc h
    unfold sepLoop at h
    cases hsi : sep i with
    | panic => simp only [hsi] at h; exact POut.noConfusion h
    | err =>
      simp only [hsi] at h
      cases h
      exact hacc
    | ok i1 a =>
      simp only [hsi] at h
      split at h
      · exact POut.noConfusion h
      · cases hei : elem i1 with
        | panic => simp only [hei] at h; exact POut.noConfusion h
        | err =>
          simp only [hei] at h
          cases h
          exact hacc
        | ok i2 o =>
          simp only [hei] at h
          refine ih i2 (acc ++ [o]) r l ?_ h
          intro x hx
          rcases List.mem_append.mp hx with hx | hx
          · exact hacc x hx
          · rw [List.mem_singleton] at hx
            subst hx
            exact helem _ _ _ hei

theorem separated_list0_mem {α β : Type} {sep : Parser α} {elem : Parser β}
    {P : β → Prop} (helem : ∀ s r v, elem s = POut.ok r v → P v) (fuel : Nat)
    {i r : List Char} {l : List β}
    (h : separated_list0 fuel sep elem i = POut.ok r l) : ∀ x ∈ l, P x := by
  unfold separated_list0 at h
  cases hei : elem i with
  | panic => simp only [hei] at h; exact POut.noConfusion h
  | err =>
    simp only [hei] at h
    cases h
    intro x hx
    exact absurd hx (List.not_mem_nil x)
  | ok i1 o =>
    simp only [hei] at h
    refine sepLoop_mem helem fuel i1 [o] r l ?_ h
    intro x hx
    rw [List.mem_singleton] at hx
    subst hx
    exact helem _ _ _ hei

theorem toKeyed_some :
    ∀ (pairs : List (JsonValue × JsonValue)),
      (∀ x ∈ pairs, ∃ ks w, x = (JsonValue.Str ks, w)) →
      ∃ kvs, toKeyed pairs = some kvs := by
  intro pairs
  induction pairs with
  | nil => intro _; exact ⟨[], rfl⟩
  | cons p rest ih =>
    intro hp
    obtain ⟨ks, w, rfl⟩ := hp p (by simp)
    obtain ⟨kvs, hkvs⟩ := ih (fun x hx => hp x (by simp [hx]))
    exact ⟨(ks, w) :: kvs, by simp [toKeyed, keyOf, hkvs]⟩

theorem noPanic_parse_objectP {pv : Parser JsonValue} (hpv : NoPanic pv) :
    NoPanic (parse_objectP pv) := by
  intro s h
  unfold parse_objectP at h
  cases hdel : (delimited (pchar '{')
      (separated_list0 (s.length + 1)
        (preceded multispace0 (pchar ','))
        (preceded multispace0 (parse_pairP pv)))
      (preceded multispace0 (pchar '}'))) s with
  | err => simp only [hdel] at h; exact POut.noConfusion h
  | panic =>
    exact noPanic_delimited (noPanic_pchar _)
      (noPanic_separated_list0
        (noPanic_preceded noPanic_multispace0 (noPanic_pchar _))
        (noPanic_preceded noPanic_multispace0 (noPanic_parse_pairP hpv)) _)
      (noPanic_preceded noPanic_multispace0 (noPanic_pchar _)) s hdel
  | ok rest pairs =>
    simp only [hdel] at h
    have hmem : ∀ x ∈ pairs, ∃ ks w, x = (JsonValue.Str ks, w) := by
      unfold delimited at hdel
      obtain ⟨r1, hpre⟩ := terminated_ok_inv hdel
      obtain ⟨s1, hlist⟩ := preceded_ok_inv hpre
      refine separated_list0_mem ?_ _ hlist
      intro s2 r2 v2 hv2
      obtain ⟨s3, hpair⟩ := preceded_ok_inv hv2
      obtain ⟨k, w⟩ := v2
      obtain ⟨ks, rfl⟩ := parse_pairP_key hpair
      exact ⟨ks, w, rfl⟩
    obtain ⟨kvs, hkvs⟩ := toKeyed_some pairs hmem
    simp only [hkvs] at h
    exact POut.noConfusion h

theorem noPanic_parse_valueF : ∀ fuel, NoPanic (parse_valueF fuel) := by
  intro fuel
  induction fuel with
  | zero => intro s h; exact POut.noConfusion h
  | succ n ih =>
    show NoPanic (preceded multispace0
      (palt parse_str
        (palt parse_num
          (palt parse_bool
            (palt parse_null
              (palt (parse_arrayP (parse_valueF n))
                    (parse_objectP (parse_valueF n))))))))
    exact noPanic_preceded noPanic_multispace0
      (noPanic_palt noPanic_parse_str
        (noPanic_palt noPanic_parse_num
          (noPanic_palt noPanic_parse_bool
            (noPanic_palt noPanic_parse_null
              (noPanic_palt (noPanic_parse_arrayP ih) (noPanic_parse_objectP ih))))))

theorem noPanic_parse_jsonF (fuel : Nat) : NoPanic (parse_jsonF fuel) :=
  noPanic_terminated (noPanic_parse_valueF fuel) noPanic_multispace0

theorem noPanic_parse_json : NoPanic parse_json := by
  intro s h
  exact noPanic_parse_jsonF (s.length + 1) s h

/-- C4: on every input (and at every fuel bound) the top-level entry
point yields a normal result — either an error or a success — never the
`panic` outcome: the `panic!("key must be a string")` branch is
unreachable because object keys only ever come from `parse_str` (which
always builds a `Str`), and the number conversion `.unwrap()` never
fires because every slice matched by `opt('-') digit1` converts. -/
theorem c4_never_panics :
    ∀ fuel s,
      (parse_jsonF fuel s = POut.err ∨ ∃ r v, parse_jsonF fuel s = POut.ok r v) ∧
      (parse_json s = POut.err ∨ ∃ r v, parse_json s = POut.ok r v) := by
  intro fuel s
  constructor
  · cases h : parse_jsonF fuel s with
    | ok r v => exact Or.inr ⟨r, v, rfl⟩
    | err => exact Or.inl rfl
    | panic => exact absurd h (noPanic_parse_jsonF fuel s)
  · cases h : parse_json s with
    | ok r v => exact Or.inr ⟨r, v, rfl⟩
    | err => exact Or.inl rfl
    | panic => exact absurd h (noPanic_parse_json s)

/-! ## Evaluation lemmas for the nesting analysis -/

theorem pchar_hit (c : Char) (s : List Char) : pchar c (c :: s) = POut.ok s c := by
  simp [pchar]

theorem pchar_miss {c a : Char} {s : List Char} (h : a ≠ c) :
    pchar c (a :: s) = POut.err := by
  simp [pchar, h]

theorem ms0_skip (a : Char) (s : List Char) (h : isMultispace a = false) :
    multispace0 (a :: s) = POut.ok (a :: s) [] := by
  unfold multispace0 take_while
  simp [List.dropWhile_cons, List.takeWhile_cons, h]

theorem pmap_ok_of {α β : Type} {p : Parser α} {f : α → β} {s r : List Char} {v : α}
    (h : p s = POut.ok r v) : pmap p f s = POut.ok r (f v) := by
  simp [pmap, h]

theorem pmap_err_of {α β : Type} {p : Parser α} {f : α → β} {s : List Char}
    (h : p s = POut.err) : pmap p f s = POut.err := by
  simp [pmap, h]

theorem ppair_err1 {α β : Type} {p : Parser α} {q : Parser β} {s : List Char}
    (h : p s = POut.err) : ppair p q s = POut.err := by
  simp [ppair, h]

theorem ppair_err2 {α β : Type} {p : Parser α} {q : Parser β} {s r1 : List Char}
    {v1 : α} (h1 : p s = POut.ok r1 v1) (h2 : q r1 = POut.err) :
    ppair p q s = POut.err := by
  simp [ppair, h1, h2]

theorem preceded_ok_of {α β : Type} {p : Parser α} {q : Parser β} {s r1 r2 : List Char}
    {v1 : α} {v2 : β} (h1 : p s = POut.ok r1 v1) (h2 : q r1 = POut.ok r2 v2) :
    preceded p q s = POut.ok r2 v2 := by
  simp [preceded, pmap, ppair, h1, h2]

theorem preceded_err1 {α β : Type} {p : Parser α} {q : Parser β} {s : List Char}
    (h : p s = POut.err) : preceded p q s = POut.err :=
  pmap_err_of (ppair_err1 h)

theorem preceded_err2 {α β : Type} {p : Parser α} {q : Parser β} {s r1 : List Char}
    {v1 : α} (h1 : p s = POut.ok r1 v1) (h2 : q r1 = POut.err) :
    preceded p q s = POut.err :=
  pmap_err_of (ppair_err2 h1 h2)

theorem terminated_ok_of {α β : Type} {p : Parser α} {q : Parser β} {s r1 r2 : List Char}
    {v1 : α} {v2 : β} (h1 : p s = POut.ok r1 v1) (h2 : q r1 = POut.ok r2 v2) :
    terminated p q s = POut.ok r2 v1 := by
  simp [terminated, pmap, ppair, h1, h2]

theorem terminated_err1 {α β : Type} {p : Parser α} {q : Parser β} {s : List Char}
    (h : p s = POut.err) : terminated p q s = POut.err :=
  pmap_err_of (ppair_err1 h)

theorem delimited_ok_of {α β γ : Type} {a : Parser α} {b : Parser β} {c : Parser γ}
    {s r1 r2 r3 : List Char} {v1 : α} {v2 : β} {v3 : γ}
    (h1 : a s = POut.ok r1 v1) (h2 : b r1 = POut.ok r2 v2)
    (h3 : c r2 = POut.ok r3 v3) : delimited a b c s = POut.ok r3 v2 :=
  terminated_ok_of (preceded_ok_of h1 h2) h3

theorem delimited_err1 {α β γ : Type} {a : Parser α} {b : Parser β} {c : Parser γ}
    {s : List Char} (h : a s = POut.err) : delimited a b c s = POut.err :=
  terminated_err1 (preceded_err1 h)

theorem palt_ok_of {α : Type} {p q : Parser α} {s r : List Char} {v : α}
    (h : p s = POut.ok r v) : palt p q s = POut.ok r v := by
  simp [palt, h]

theorem palt_err_of {α : Type} {p q : Parser α} {s : List Char}
    (h : p s = POut.err) : palt p q s = q s := by
  simp [palt, h]

theorem popt_of_err {α : Type} {p : Parser α} {s : List Char} (h : p s = POut.err) :
    popt p s = POut.ok s none := by
  simp [popt, h]

theorem recognize_err_of {α : Type} {p : Parser α} {s : List Char}
    (h : p s = POut.err) : recognize p s = POut.err := by
  simp [recognize, h]

theorem preceded_pass {α β : Type} {p : Parser α} {q : Parser β} {s r1 : List Char}
    {v1 : α} (h1 : p s = POut.ok r1 v1) : preceded p q s = q r1 := by
  unfold preceded pmap ppair
  simp only [h1]
  cases hq : q r1 <;> simp [hq]

theorem parse_str_err_head {a : Char} {t : List Char} (h : a ≠ '"') :
    parse_str (a :: t) = POut.err :=
  pmap_err_of (delimited_err1 (pchar_miss h))

theorem parse_num_err_head {a : Char} {t : List Char} (h1 : a ≠ '-')
    (h2 : a.isDigit = false) : parse_num (a :: t) = POut.err := by
  have hdg : digit1 (a :: t) = POut.err := by
    simp [digit1, List.takeWhile_cons, h2]
  have hpp : ppair (popt (pchar '-')) digit1 (a :: t) = POut.err :=
    ppair_err2 (popt_of_err (pchar_miss h1)) hdg
  have hrec := recognize_err_of hpp
  simp only [parse_num, hrec]

theorem ptag_miss_head {a c : Char} {t rest : List Char}
    (h : a ≠ c) : ptag (c :: rest) (a :: t) = POut.err := by
  have hne : (c == a) = false := beq_eq_false_iff_ne.mpr (fun hh => h hh.symm)
  simp [ptag, List.isPrefixOf, hne]

theorem parse_bool_err_head {a : Char} {t : List Char} (h1 : a ≠ 't') (h2 : a ≠ 'f') :
    parse_bool (a :: t) = POut.err := by
  have ht : ptag "true".toList (a :: t) = POut.err := ptag_miss_head h1
  have hf : ptag "false".toList (a :: t) = POut.err := ptag_miss_head h2
  show palt (pmap (ptag "true".toList) (fun _ => JsonValue.Bool true))
       (pmap (ptag "false".toList) (fun _ => JsonValue.Bool false)) (a :: t) = POut.err
  rw [palt_err_of (pmap_err_of ht)]
  exact pmap_err_of hf

theorem parse_null_err_head {a : Char} {t : List Char} (h : a ≠ 'n') :
    parse_null (a :: t) = POut.err :=
  pmap_err_of (ptag_miss_head h)

theorem parse_arrayP_err_head {pv : Parser JsonValue} {a : Char} {t : List Char}
    (h : a ≠ '[') : parse_arrayP pv (a :: t) = POut.err := by
  show pmap (delimited (pchar '[')
      (separated_list0 ((a :: t).length + 1)
        (preceded multispace0 (pchar ','))
        (preceded multispace0 pv))
      (pchar ']')) JsonValue.Array (a :: t) = POut.err
  exact pmap_err_of (delimited_err1 (pchar_miss h))

theorem parse_objectP_err_head {pv : Parser JsonValue} {a : Char} {t : List Char}
    (h : a ≠ '{') : parse_objectP pv (a :: t) = POut.err := by
  have hdel : (delimited (pchar '{')
      (separated_list0 ((a :: t).length + 1)
        (preceded multispace0 (pchar ','))
        (preceded multispace0 (parse_pairP pv)))
      (preceded multispace0 (pchar '}'))) (a :: t) = POut.err :=
    delimited_err1 (pchar_miss h)
  unfold parse_objectP
  simp only [hdel]

theorem parse_valueF_rbracket (f : Nat) (t : List Char) :
    parse_valueF f (']' :: t) = POut.err := by
  cases f with
  | zero => rfl
  | succ n =>
    show preceded multispace0
      (palt parse_str
        (palt parse_num
          (palt parse_bool
            (palt parse_null
              (palt (parse_arrayP (parse_valueF n))
                    (parse_objectP (parse_valueF n))))))) (']' :: t) = POut.err
    rw [preceded_pass (ms0_skip ']' t (by decide)),
        palt_err_of (parse_str_err_head (by decide)),
        palt_err_of (parse_num_err_head (by decide) (by decide)),
        palt_err_of (parse_bool_err_head (by decide) (by decide)),
        palt_err_of (parse_null_err_head (by decide)),
        palt_err_of (parse_arrayP_err_head (by decide))]
    exact parse_objectP_err_head (by decide)

theorem parse_valueF_lbracket (f : Nat) (t : List Char) :
    parse_valueF (f + 1) ('[' :: t) =
      palt (parse_arrayP (parse_valueF f)) (parse_objectP (parse_valueF f)) ('[' :: t) := by
  show preceded multispace0
    (palt parse_str
      (palt parse_num
        (palt parse_bool
          (palt parse_null
            (palt (parse_arrayP (parse_valueF f))
                  (parse_objectP (parse_valueF f))))))) ('[' :: t) = _
  rw [preceded_pass (ms0_skip '[' t (by decide)),
      palt_err_of (parse_str_err_head (by decide)),
      palt_err_of (parse_num_err_head (by decide) (by decide)),
      palt_err_of (parse_bool_err_head (by decide) (by decide)),
      palt_err_of (parse_null_err_head (by decide))]

theorem separated_list0_single {α β : Type} (sep : Parser α) (elem : Parser β)
    (fuel : Nat) (t i1 : List Char) (o : β)
    (he : elem t = POut.ok i1 o) (hs : sep i1 = POut.err) :
    separated_list0 (fuel + 1) sep elem t = POut.ok i1 [o] := by
  simp only [separated_list0, he, sepLoop, hs]

theorem separated_list0_empty {α β : Type} {sep : Parser α} {elem : Parser β}
    {fuel : Nat} {t : List Char} (he : elem t = POut.err) :
    separated_list0 fuel sep elem t = POut.ok t [] := by
  simp only [separated_list0, he]

theorem parse_arrayP_run (pv : Parser JsonValue) (t rest : List Char)
    (l : List JsonValue)
    (hlist : separated_list0 (('[' :: t).length + 1)
        (preceded multispace0 (pchar ','))
        (preceded multispace0 pv) t = POut.ok (']' :: rest) l) :
    parse_arrayP pv ('[' :: t) = POut.ok rest (JsonValue.Array l) := by
  show pmap (delimited (pchar '[')
      (separated_list0 (('[' :: t).length + 1)
        (preceded multispace0 (pchar ','))
        (preceded multispace0 pv))
      (pchar ']')) JsonValue.Array ('[' :: t) = _
  exact pmap_ok_of (delimited_ok_of (pchar_hit '[' t) hlist (pchar_hit ']' rest))

/-- Nested brackets parse to nested arrays, at any sufficient fuel:
there is no depth limit anywhere in the parser. -/
theorem parse_valueF_nest :
    ∀ (m f : Nat), m + 2 ≤ f → ∀ (rest : List Char),
      parse_valueF f (nestInput (m + 1) ++ rest) = POut.ok rest (nestVal m) := by
  intro m
  induction m with
  | zero =>
    intro f hf rest
    obtain ⟨f', rfl⟩ : ∃ f', f = f' + 1 := ⟨f - 1, by omega⟩
    have hin : nestInput 1 ++ rest = '[' :: (']' :: rest) := by
      simp [nestInput]
    rw [hin, parse_valueF_lbracket]
    have helem : preceded multispace0 (parse_valueF f') (']' :: rest) = POut.err :=
      preceded_err2 (ms0_skip ']' rest (by decide)) (parse_valueF_rbracket f' rest)
    have hlist : separated_list0 (('[' :: (']' :: rest)).length + 1)
        (preceded multispace0 (pchar ','))
        (preceded multispace0 (parse_valueF f')) (']' :: rest) =
        POut.ok (']' :: rest) [] := separated_list0_empty helem
    exact palt_ok_of (parse_arrayP_run _ _ _ _ hlist)
  | succ m ih =>
    intro f hf rest
    obtain ⟨f', rfl⟩ : ∃ f', f = f' + 1 := ⟨f - 1, by omega⟩
    have hf' : m + 2 ≤ f' := by omega
    have hsplit : nestInput (m + 2) ++ rest =
        '[' :: (nestInput (m + 1) ++ (']' :: rest)) := by
      show (List.replicate (m + 2) '[' ++ List.replicate (m + 2) ']') ++ rest = _
      rw [List.replicate_succ '[' (m + 1), List.replicate_succ' (m + 1) ']']
      simp [nestInput, List.append_assoc]
    rw [hsplit, parse_valueF_lbracket]
    have hval := ih f' hf' (']' :: rest)
    have hhead : nestInput (m + 1) ++ (']' :: rest) =
        '[' :: (List.replicate m '[' ++ List.replicate (m + 1) ']' ++ (']' :: rest)) := by
      show (List.replicate (m + 1) '[' ++ List.replicate (m + 1) ']') ++ (']' :: rest) = _
      rw [List.replicate_succ '[' m]
      simp [List.append_assoc]
    have hms : multispace0 (nestInput (m + 1) ++ (']' :: rest)) =
        POut.ok (nestInput (m + 1) ++ (']' :: rest)) [] := by
      rw [hhead]
      exact ms0_skip _ _ (by decide)
    have helem : preceded multispace0 (parse_valueF f')
        (nestInput (m + 1) ++ (']' :: rest)) = POut.ok (']' :: rest) (nestVal m) :=
      preceded_ok_of hms hval
    have hsep : preceded multispace0 (pchar ',') (']' :: rest) = POut.err :=
      preceded_err2 (ms0_skip ']' rest (by decide)) (pchar_miss (by decide))
    have hlist : separated_list0
        (('[' :: (nestInput (m + 1) ++ (']' :: rest))).length + 1)
        (preceded multispace0 (pchar ','))
        (preceded multispace0 (parse_valueF f'))
        (nestInput (m + 1) ++ (']' :: rest)) = POut.ok (']' :: rest) [nestVal m] := by
      have hfl : ('[' :: (nestInput (m + 1) ++ (']' :: rest))).length + 1 =
          ((nestInput (m + 1) ++ (']' :: rest)).length + 1) + 1 := by
        simp
      rw [hfl]
      exact separated_list0_single _ _ _ _ _ _ helem hsep
    exact palt_ok_of (parse_arrayP_run _ _ _ _ hlist)

/-- C8: there is no nesting-depth limit in the parser.  The document of
100,000 nested arrays — which the claim says must fail with
NestingTooDeep — parses successfully to the 100,000-deep array value
(the code has no depth counter and no NestingTooDeep error; in real
execution the unbounded recursion is what exhausts the call stack). -/
theorem c8_no_depth_limit :
    parse_json (nestInput 100000) = POut.ok [] (nestVal 99999) := by
  have hv : parse_valueF ((nestInput 100000).length + 1)
      (nestInput (99999 + 1) ++ []) = POut.ok [] (nestVal 99999) := by
    refine parse_valueF_nest 99999 _ ?_ []
    have hl : (nestInput 100000).length = 200000 := by
      rw [nestInput, List.length_append, List.length_replicate, List.length_replicate]
    rw [hl]
    norm_num
  rw [List.append_nil] at hv
  show terminated (parse_valueF ((nestInput 100000).length + 1)) multispace0
      (nestInput 100000) = _
  exact terminated_ok_of hv rfl

/-- C5: the render-then-parse round trip fails on the value
`String("\")` (a single backslash).  A compliant renderer renders it as
the 4-character document quote, backslash, backslash, quote; the parser
copies the two backslashes raw, producing `String("\\")` (two
backslashes), which differs from the original value. -/
theorem c5_roundtrip_fails_on_backslash :
    renderString ['\\'] = ['"', '\\', '\\', '"'] ∧
    parse_json (renderString ['\\']) = POut.ok [] (JsonValue.Str ['\\', '\\']) ∧
    (['\\', '\\'] : List Char) ≠ ['\\'] :=
  ⟨rfl, rfl, by decide⟩
